import Mathlib

/-!
Verification of the TensorRT concurrency-fuzzer harness (`src/fuzzer.cc`).

The development shallowly embeds the components of the harness:

* `sizeof_dtype` / `sizeof_tensor` — the tensor byte-size resolver
  (`fuzzer.cc` lines 22–53), with the C `int` accumulator modelled as
  wrapping 32-bit signed arithmetic (`wrap32`) and the final conversion
  to `size_t` modelled by `toSizeT`;
* `HostMemory.randomize` — the pinned-buffer bulk random fill
  (`fuzzer.cc` lines 86–89), over a byte-addressed memory model, with
  `std::default_random_engine` modelled as the minstd_rand0 LCG;
* the steady-state fuzz loop and the setup sequence of `main`
  (`fuzzer.cc` lines 260–292), modelled as event traces.

Definitions come first, then the theorems about them.
-/

/-- Wrap of an integer into the range of a 32-bit signed `int`
(two-complement), modelling overflow of the C `int` accumulator in
`sizeof_tensor`. -/
def wrap32 (x : Int) : Int := (x + 2 ^ 31) % 2 ^ 32 - 2 ^ 31

/-- Conversion of a C `int` value to `size_t` (64-bit unsigned), as in
the `return size;` of `sizeof_tensor`: reduction modulo `2 ^ 64`. -/
def toSizeT (x : Int) : Nat := (x % 2 ^ 64).toNat

/-- The element-type tags of the introspection interface
(`nvinfer1::DataType`).  The first seven are the tags handled by the
`switch` in `sizeof_dtype` (`fuzzer.cc` lines 22–33); the remaining tags
exist in the type-tag space of the runtime but fall to the `default:`
branch of the `switch`. -/
inductive DataType
  | kFLOAT
  | kHALF
  | kINT8
  | kINT32
  | kBOOL
  | kUINT8
  | kFP8
  | kBF16
  | kINT64
  | kINT4
deriving DecidableEq

/-- Embedding of `sizeof_dtype` (`fuzzer.cc` lines 22–33): byte width of an element
type; the `default:` branch throws `std::invalid_argument`, modelled as
`Except.error`. -/
def sizeof_dtype : DataType → Except String Nat
  | .kFLOAT => .ok 4
  | .kHALF => .ok 2
  | .kINT8 => .ok 1
  | .kINT32 => .ok 4
  | .kBOOL => .ok 1
  | .kUINT8 => .ok 1
  | .kFP8 => .ok 1
  | _ => .error "dtype must be variant of DataType"

/-- Modelled from the spec (§4.1): the fixed table of supported element
byte widths — 32-bit float → 4, 16-bit float → 2, 8-bit
integer/boolean/8-bit-float variants → 1, 32-bit integer → 4; `none` for
tags outside the table.  Used only to compare `sizeof_dtype` against the
table stated in the spec. -/
def spec_dtype_width : DataType → Option Nat
  | .kFLOAT => some 4
  | .kHALF => some 2
  | .kINT8 => some 1
  | .kINT32 => some 4
  | .kBOOL => some 1
  | .kUINT8 => some 1
  | .kFP8 => some 1
  | _ => none

/-- The memory-layout tags of the introspection interface
(`nvinfer1::TensorFormat`).  Only `kLINEAR` versus everything else
matters to `sizeof_tensor` (`fuzzer.cc` line 40). -/
inductive TensorFormat
  | kLINEAR
  | kCHW2
  | kHWC8
  | kCHW4
  | kCHW16
  | kCHW32
  | kDHWC8
  | kCDHW32
  | kHWC
  | kDLA_LINEAR
  | kDLA_HWC4
  | kHWC16
deriving DecidableEq

/-- Embedding of `nvinfer1::Dims`: a dimension count and the extents array `d`.
The C array `d[MAX_DIMS]` is modelled as a total function so that the
write of the source at an index past `nbDims` (see
`c10_padding_dimension`) stays well defined. -/
structure Dims where
  nbDims : Nat
  d : Nat → Int

/-- The facts that introspection reports for one named tensor (spec §6):
shape, element type tag, layout tag, and, for vectorized layouts, the
component-group size and the packed dimension index.  `vectorizedDim`
is the value of the `getTensorVectorizedDim` query — a query that
`sizeof_tensor` in the source never makes. -/
structure TensorInfo where
  shape : Dims
  dtype : DataType
  format : TensorFormat
  componentsPerElement : Nat
  vectorizedDim : Nat

/-- Embedding of `sizeof_tensor` (`fuzzer.cc` lines 35–53).  Faithful to the source:
for a non-linear format the index of the padded dimension is taken from
`getTensorComponentsPerElement` (both local variables at lines 41–42 are
assigned from that same call), the padding adds
`components_per_element - (extent % components_per_element)`
unconditionally (C `%` truncates, hence `Int.tmod`), and the size
accumulator is a 32-bit signed `int` (`auto size = 1;`), wrapped at
every multiplication and converted to `size_t` on return. -/
def sizeof_tensor (t : TensorInfo) : Except String Nat := do
  let shape :=
    if t.format ≠ TensorFormat.kLINEAR then
      let vectorized_dimension := t.componentsPerElement
      let components_per_element : Int := t.componentsPerElement
      { t.shape with
        d := Function.update t.shape.d vectorized_dimension
          (wrap32 (t.shape.d vectorized_dimension +
            (components_per_element -
              Int.tmod (t.shape.d vectorized_dimension) components_per_element))) }
    else t.shape
  let width ← sizeof_dtype t.dtype
  let size := (List.range shape.nbDims).foldl (fun s dim => wrap32 (s * shape.d dim)) 1
  let size := wrap32 (size * (width : Int))
  pure (toSizeT size)

/-- The mathematical byte footprint of a tensor: product of all extents
times the element byte width, with no wrapping. -/
def trueByteSize (t : TensorInfo) (width : Nat) : Int :=
  ((List.range t.shape.nbDims).map t.shape.d).prod * width

/-- A vectorized tensor whose packed dimension (index 2, extent 4) is an
exact multiple of the component-group size 2: extents `[3, 5, 4]`,
32-bit float elements. -/
def exactMultipleTensor : TensorInfo :=
  { shape := ⟨3, fun i => if i = 0 then 3 else if i = 1 then 5 else if i = 2 then 4 else 0⟩,
    dtype := .kFLOAT, format := .kCHW2, componentsPerElement := 2, vectorizedDim := 2 }

/-- The vectorized example tensor of spec §8: extents `[3, 7]`, packed
dimension index 1, component-group size 4, 32-bit float elements. -/
def notMultipleTensor : TensorInfo :=
  { shape := ⟨2, fun i => if i = 0 then 3 else if i = 1 then 7 else 0⟩,
    dtype := .kFLOAT, format := .kCHW4, componentsPerElement := 4, vectorizedDim := 1 }

/-- A linear-layout tensor whose mathematical byte size `2 ^ 35`
overflows a 32-bit signed `int`: extents `[65536, 65536, 2]`, 32-bit
float elements. -/
def bigLinearTensor : TensorInfo :=
  { shape := ⟨3, fun i => if i = 0 then 65536 else if i = 1 then 65536 else if i = 2 then 2 else 0⟩,
    dtype := .kFLOAT, format := .kLINEAR, componentsPerElement := 1, vectorizedDim := 0 }

/-- A small linear-layout tensor: extents `[3, 7]`, 32-bit float
elements. -/
def smallLinearTensor : TensorInfo :=
  { shape := ⟨2, fun i => if i = 0 then 3 else if i = 1 then 7 else 0⟩,
    dtype := .kFLOAT, format := .kLINEAR, componentsPerElement := 1, vectorizedDim := 0 }

/-- One step of the `std::default_random_engine` of libstdc++
(minstd_rand0): `x ↦ 16807 · x mod 2147483647`. -/
def lcg (s : Nat) : Nat := 16807 * s % 2147483647

/-- Store one little-endian word of `w` bytes at byte address `addr` of
a byte-addressed memory. -/
def writeWord (w addr word : Nat) (mem : Nat → Nat) : Nat → Nat :=
  fun a => if addr ≤ a ∧ a < addr + w then word / 256 ^ (a - addr) % 256 else mem a

/-- Embedding of `HostMemory` (`fuzzer.cc` lines 55–94): a pinned host region,
modelled by its base byte address and its byte size. -/
structure HostMemory where
  ptr : Nat
  size : Nat

/-- Embedding of `HostMemory::randomize` (`fuzzer.cc` lines 86–89): `std::generate`
over the region viewed as `size_ / sizeof(rand_t)` words of `w` bytes,
assigning successive generator outputs.  Returns the written memory and
the advanced generator state. -/
def HostMemory.randomize (w : Nat) (hm : HostMemory) (seed : Nat) (mem : Nat → Nat) :
    (Nat → Nat) × Nat :=
  ((List.range (hm.size / w)).foldl
    (fun m j => writeWord w (hm.ptr + j * w) (lcg^[j + 1] seed) m) mem,
   lcg^[hm.size / w] seed)

/-- The two execution units of the session: unit A is
`context0`/`stream0`/`buffers0`, unit B is `context1`/`stream1`/
`buffers1`. -/
inductive UnitId
  | A
  | B
deriving DecidableEq

/-- Observable events of one iteration of the steady-state fuzz loop.
`rand u n` records the bulk random fill of one buffer of unit `u`
consuming `n` generator words. -/
inductive FuzzEv
  | progress (i : Nat)
  | rand (u : UnitId) (words : Nat)
  | launch (u : UnitId)
  | sync (u : UnitId)
deriving DecidableEq

/-- Embedding of `IOBuffers` (`fuzzer.cc` lines 96–104): the input buffers and the
output buffers of one execution unit, in introspection order. -/
structure IOBuffers where
  inputs : List HostMemory
  outputs : List HostMemory

/-- Number of generator words one full `IOBuffers::randomize` consumes. -/
def IOBuffers.words (w : Nat) (b : IOBuffers) : Nat :=
  ((b.inputs ++ b.outputs).map (fun hm => hm.size / w)).sum

/-- Randomize a list of buffers in order, threading the shared engine
state and emitting one `rand` event per buffer. -/
def buffersRandTrace (w : Nat) (u : UnitId) (bufs : List HostMemory) (seed : Nat) :
    Nat × List FuzzEv :=
  bufs.foldl
    (fun acc hm => (lcg^[hm.size / w] acc.1, acc.2 ++ [FuzzEv.rand u (hm.size / w)]))
    (seed, [])

/-- Embedding of `IOBuffers::randomize` (`fuzzer.cc` lines 100–103): every input
buffer in order, then every output buffer in order, all from the one
shared engine. -/
def IOBuffers.randomizeTrace (w : Nat) (u : UnitId) (b : IOBuffers) (seed : Nat) :
    Nat × List FuzzEv :=
  let ri := buffersRandTrace w u b.inputs seed
  let ro := buffersRandTrace w u b.outputs ri.1
  (ro.1, ri.2 ++ ro.2)

/-- The `rand` events one full `IOBuffers::randomize` of unit `u`
emits. -/
def randEvs (w : Nat) (u : UnitId) (b : IOBuffers) : List FuzzEv :=
  (b.inputs ++ b.outputs).map (fun hm => FuzzEv.rand u (hm.size / w))

/-- One iteration of the steady-state fuzz loop (`fuzzer.cc` lines
283–289): progress print, randomize the buffers of unit A then those of
unit B from the one shared engine, launch the graph of A then the graph
of B, synchronize the stream of A then the stream of B. -/
def loopBody (w : Nat) (bufs0 bufs1 : IOBuffers) (i : Nat) (seed : Nat) :
    Nat × List FuzzEv :=
  let r0 := bufs0.randomizeTrace w UnitId.A seed
  let r1 := bufs1.randomizeTrace w UnitId.B r0.1
  (r1.1,
    FuzzEv.progress i ::
      (r0.2 ++ r1.2 ++
        [FuzzEv.launch UnitId.A, FuzzEv.launch UnitId.B,
         FuzzEv.sync UnitId.A, FuzzEv.sync UnitId.B]))

/-- Engine state at the start of iteration `n` of the fuzz loop, the
loop having started from engine state `seed0`. -/
def seedBefore (w : Nat) (bufs0 bufs1 : IOBuffers) (seed0 : Nat) : Nat → Nat
  | 0 => seed0
  | n + 1 => (loopBody w bufs0 bufs1 n (seedBefore w bufs0 bufs1 seed0 n)).1

/-- The event trace of iteration `n` of the fuzz loop. -/
def iterationTrace (w : Nat) (bufs0 bufs1 : IOBuffers) (seed0 n : Nat) : List FuzzEv :=
  (loopBody w bufs0 bufs1 n (seedBefore w bufs0 bufs1 seed0 n)).2

/-- A small concrete buffer set for unit A, used in closed instances. -/
def demoBufsA : IOBuffers := ⟨[⟨0, 16⟩], [⟨16, 8⟩]⟩

/-- A small concrete buffer set for unit B, used in closed instances. -/
def demoBufsB : IOBuffers := ⟨[⟨24, 32⟩], [⟨56, 8⟩]⟩

/-- Observable events of the one-time setup sequence of `main`. -/
inductive SetupEv
  | enqueue (u : UnitId)
  | sync (u : UnitId)
  | beginCapture (u : UnitId)
  | endCapture (u : UnitId)
  | graphInst (u : UnitId)
  | loopEnter
deriving DecidableEq

/-- The setup sequence of `main` (`fuzzer.cc` lines 260–282), in source
order: warm-up enqueue and synchronize of unit A (lines 261–262), the
same for unit B (lines 264–265), then for unit A begin capture, enqueue,
end capture (the `Graph` constructor), instantiate (the `GraphExec`
constructor), synchronize (lines 268–272), the same for unit B (lines
274–278), and finally entry into the steady-state loop (line 282). -/
def setupTrace : List SetupEv :=
  [.enqueue .A, .sync .A,
   .enqueue .B, .sync .B,
   .beginCapture .A, .enqueue .A, .endCapture .A, .graphInst .A, .sync .A,
   .beginCapture .B, .enqueue .B, .endCapture .B, .graphInst .B, .sync .B,
   .loopEnter]

/-- The prefix of a trace strictly before the first occurrence of `e`. -/
def beforeFirst (e : SetupEv) (t : List SetupEv) : List SetupEv :=
  t.takeWhile (fun x => x != e)

/-- The segment of a trace strictly between the first occurrence of `a`
and the next occurrence of `b` after it. -/
def betweenFirst (a b : SetupEv) (t : List SetupEv) : List SetupEv :=
  (((t.dropWhile (fun x => x != a)).drop 1).takeWhile (fun x => x != b))

/-- Whether a setup event is a stream synchronization. -/
def isSyncEv : SetupEv → Bool
  | .sync _ => true
  | _ => false

/-- The host-visible state of `main` in the steady state: either inside
the loop before iteration `i` with engine state `seed`, or exited with a
process exit code. -/
inductive MainState
  | looping (i : Nat) (seed : Nat)
  | exited (code : Nat)
deriving DecidableEq

/-- The condition of the steady-state `for` loop (`fuzzer.cc` line 282):
literally `true`. -/
def loopCond (_ : Nat) : Bool := true

/-- One host step of the steady state of `main`: with the loop condition
true, run the loop body and advance to the next iteration; were the
condition ever false, `main` would fall through to `return 0;`
(line 292). -/
def mainStep (w : Nat) (bufs0 bufs1 : IOBuffers) : MainState → MainState
  | .looping i seed =>
      if loopCond i then
        .looping (i + 1) (loopBody w bufs0 bufs1 i seed).1
      else
        .exited 0
  | .exited c => .exited c

/-! ## Theorems -/

theorem wrap32_eq_sub (x : Int) : wrap32 x = x - 2 ^ 32 * ((x + 2 ^ 31) / 2 ^ 32) := by
  unfold wrap32
  rw [Int.emod_def]
  ring

theorem wrap32_add_mul_left (x m : Int) : wrap32 (x + 2 ^ 32 * m) = wrap32 x := by
  unfold wrap32
  have h : x + 2 ^ 32 * m + 2 ^ 31 = x + 2 ^ 31 + 2 ^ 32 * m := by ring
  rw [h, Int.add_mul_emod_self_left]

theorem wrap32_mul_left (a b : Int) : wrap32 (wrap32 a * b) = wrap32 (a * b) := by
  rw [wrap32_eq_sub a]
  have h : (a - 2 ^ 32 * ((a + 2 ^ 31) / 2 ^ 32)) * b
      = a * b + 2 ^ 32 * (-((a + 2 ^ 31) / 2 ^ 32) * b) := by ring
  rw [h, wrap32_add_mul_left]

theorem wrap32_eq_self (x : Int) (h1 : -2 ^ 31 ≤ x) (h2 : x < 2 ^ 31) : wrap32 x = x := by
  unfold wrap32
  rw [Int.emod_eq_of_lt (by omega) (by omega)]
  omega

theorem wrap32_lb (x : Int) : -2 ^ 31 ≤ wrap32 x := by
  unfold wrap32
  have := Int.emod_nonneg (x + 2 ^ 31) (show (2 ^ 32 : Int) ≠ 0 by norm_num)
  omega

theorem wrap32_ub (x : Int) : wrap32 x < 2 ^ 31 := by
  unfold wrap32
  have := Int.emod_lt_of_pos (x + 2 ^ 31) (show (0 : Int) < 2 ^ 32 by norm_num)
  omega

theorem toSizeT_of_nonneg (x : Int) (h1 : 0 ≤ x) (h2 : x < 2 ^ 64) : toSizeT x = x.toNat := by
  unfold toSizeT
  rw [Int.emod_eq_of_lt h1 h2]

theorem toSizeT_of_neg (x : Int) (h1 : -2 ^ 64 ≤ x) (h2 : x < 0) :
    toSizeT x = (x + 2 ^ 64).toNat := by
  unfold toSizeT
  have h : x % 2 ^ 64 = (x + 2 ^ 64) % 2 ^ 64 := by
    conv_rhs => rw [show x + 2 ^ 64 = x + 2 ^ 64 * 1 by ring, Int.add_mul_emod_self_left]
  rw [h, Int.emod_eq_of_lt (by omega) (by omega)]

theorem wrap32_foldl (l : List Nat) (d : Nat → Int) (a : Int) :
    l.foldl (fun s i => wrap32 (s * d i)) (wrap32 a)
      = wrap32 (l.foldl (fun s i => s * d i) a) := by
  induction l generalizing a with
  | nil => rfl
  | cons i tl ih =>
    simp only [List.foldl_cons]
    rw [wrap32_mul_left, ih]

theorem range_foldl_wrap_congr (n : Nat) (d1 d2 : Nat → Int)
    (h : ∀ i, i < n → d1 i = d2 i) (a : Int) :
    (List.range n).foldl (fun s i => wrap32 (s * d1 i)) a
      = (List.range n).foldl (fun s i => wrap32 (s * d2 i)) a := by
  induction n generalizing a with
  | zero => rfl
  | succ n ih =>
    rw [List.range_succ, List.foldl_append, List.foldl_append]
    rw [ih (fun i hi => h i (Nat.lt_succ_of_lt hi)) a]
    simp only [List.foldl_cons, List.foldl_nil]
    rw [h n (Nat.lt_succ_self n)]

theorem sizeof_tensor_linear (t : TensorInfo) (width : Nat)
    (hf : t.format = TensorFormat.kLINEAR)
    (hd : sizeof_dtype t.dtype = Except.ok width) :
    sizeof_tensor t = Except.ok (toSizeT (wrap32 (trueByteSize t width))) := by
  unfold sizeof_tensor
  rw [hf]
  simp only [ne_eq, not_true_eq_false, if_neg, ite_false, hd]
  show Except.ok (toSizeT (wrap32 ((List.range t.shape.nbDims).foldl
      (fun s dim => wrap32 (s * t.shape.d dim)) 1 * (width : Int)))) = _
  have h1 : (1 : Int) = wrap32 1 := by decide
  rw [h1, wrap32_foldl, wrap32_mul_left]
  congr 2
  unfold trueByteSize
  rw [List.prod_eq_foldl, List.foldl_map]

/-- Claim C1 (code_bug evidence).  The claim asserts that when the
packed dimension extent is already an exact multiple of the
component-group size, the resolved size equals the plain product
formula.  At the failing input `exactMultipleTensor` (extents
`[3, 5, 4]`, packed dimension index 2, group size 2, fp32, so size
should be `3 * 5 * 4 * 4 = 240`), the source adds a full extra group to
the extent (`4 → 4 + (2 - 4 % 2) = 6`) even at an exact multiple and
returns 360, not 240. -/
theorem c1_exact_multiple_eval :
    sizeof_tensor exactMultipleTensor = Except.ok 360 ∧
    (trueByteSize exactMultipleTensor 4).toNat = 240 ∧
    sizeof_tensor exactMultipleTensor ≠ Except.ok 240 := by
  refine ⟨rfl, by decide, fun h => ?_⟩
  rw [show sizeof_tensor exactMultipleTensor = Except.ok 360 from rfl] at h
  exact absurd (Except.ok.inj h) (by decide)

/-- Claim C2 (code_bug evidence).  The claim asserts that a
non-multiple packed extent is rounded up to the next multiple of the
group size; on the example of spec §8 (`notMultipleTensor`: extents
`[3, 7]`, packed dimension index 1, group size 4, fp32) it demands
`3 * 8 * 4 = 96` bytes.  The source instead pads the dimension whose
index equals the component-group size (index 4, outside the two logical
dimensions, because line 41 queries `getTensorComponentsPerElement`
instead of the vectorized-dimension index), so no logical extent
changes and it returns `3 * 7 * 4 = 84`. -/
theorem c2_not_multiple_eval :
    sizeof_tensor notMultipleTensor = Except.ok 84 ∧
    sizeof_tensor notMultipleTensor ≠ Except.ok 96 := by
  refine ⟨rfl, fun h => ?_⟩
  rw [show sizeof_tensor notMultipleTensor = Except.ok 84 from rfl] at h
  exact absurd (Except.ok.inj h) (by decide)

/-- Claim C3 (counterexample).  The claim as stated — for every
linear-layout tensor the resolved size equals the product of extents
times element width exactly — fails on the code: the accumulator is a
32-bit signed `int`, so `bigLinearTensor` (extents `[65536, 65536, 2]`,
fp32, mathematical size `2 ^ 35` bytes) resolves to 0. -/
theorem c3_overflow_counterexample :
    sizeof_tensor bigLinearTensor = Except.ok 0 ∧
    (trueByteSize bigLinearTensor 4).toNat = 2 ^ 35 ∧
    sizeof_tensor bigLinearTensor ≠ Except.ok (trueByteSize bigLinearTensor 4).toNat := by
  refine ⟨rfl, by decide, fun h => ?_⟩
  rw [show sizeof_tensor bigLinearTensor = Except.ok 0 from rfl] at h
  have h2 := Except.ok.inj h
  rw [show (trueByteSize bigLinearTensor 4).toNat = 2 ^ 35 from by decide] at h2
  exact absurd h2 (by decide)

/-- Claim C3 (amended).  For every tensor with linear layout whose
mathematical byte size is nonnegative and fits in a 32-bit signed
`int`, the resolved byte size equals exactly the product of all
dimension extents multiplied by the element byte width. -/
theorem c3_linear_exact (t : TensorInfo) (width : Nat)
    (hf : t.format = TensorFormat.kLINEAR)
    (hd : sizeof_dtype t.dtype = Except.ok width)
    (h0 : 0 ≤ trueByteSize t width) (h1 : trueByteSize t width < 2 ^ 31) :
    sizeof_tensor t = Except.ok (trueByteSize t width).toNat := by
  rw [sizeof_tensor_linear t width hf hd, wrap32_eq_self _ (by omega) h1,
    toSizeT_of_nonneg _ h0 (by omega)]

/-- Witness for `c3_linear_exact` at the concrete linear tensor with
extents `[3, 7]` and fp32 elements. -/
theorem c3_linear_exact_witness :
    sizeof_tensor smallLinearTensor = Except.ok (trueByteSize smallLinearTensor 4).toNat :=
  c3_linear_exact smallLinearTensor 4 rfl rfl (by decide) (by decide)

/-- Claim C4.  For every element type tag inside the table of the spec
(`spec_dtype_width`), `sizeof_dtype` returns exactly the tabulated
width; for every tag outside the table it fails with the type error,
and an `ok` result is never zero. -/
theorem c4_dtype_table (dt : DataType) :
    (∀ width, spec_dtype_width dt = some width → sizeof_dtype dt = Except.ok width) ∧
    (spec_dtype_width dt = none →
      sizeof_dtype dt = Except.error "dtype must be variant of DataType") ∧
    (∀ width, sizeof_dtype dt = Except.ok width → 0 < width) := by
  cases dt <;> refine ⟨?_, ?_, ?_⟩ <;> simp [spec_dtype_width, sizeof_dtype]

/-- Witness for `c4_dtype_table`: a tag inside the table and a tag
outside it. -/
theorem c4_dtype_table_witness :
    sizeof_dtype DataType.kFLOAT = Except.ok 4 ∧
    sizeof_dtype DataType.kBF16 = Except.error "dtype must be variant of DataType" :=
  ⟨(c4_dtype_table DataType.kFLOAT).1 4 rfl, (c4_dtype_table DataType.kBF16).2.1 rfl⟩

/-- Claim C9.  The size computation accumulates in a 32-bit signed
`int`: for every linear-layout tensor whose true byte footprint exceeds
`2 ^ 31 - 1`, the returned size is the wrapped (and, on a negative
wrap, sign-converted) 32-bit value; whenever the footprint is moreover
below `2 ^ 64 - 2 ^ 31` that returned value cannot equal the
mathematical product. -/
theorem c9_int32_wrap (t : TensorInfo) (width : Nat)
    (hf : t.format = TensorFormat.kLINEAR)
    (hd : sizeof_dtype t.dtype = Except.ok width)
    (hbig : 2 ^ 31 - 1 < trueByteSize t width) :
    sizeof_tensor t = Except.ok (toSizeT (wrap32 (trueByteSize t width))) ∧
    (trueByteSize t width < 2 ^ 64 - 2 ^ 31 →
      sizeof_tensor t ≠ Except.ok (trueByteSize t width).toNat) := by
  have hmain := sizeof_tensor_linear t width hf hd
  refine ⟨hmain, fun hub h => ?_⟩
  rw [hmain] at h
  have h2 := Except.ok.inj h
  have hb1 := wrap32_lb (trueByteSize t width)
  have hb2 := wrap32_ub (trueByteSize t width)
  unfold toSizeT at h2
  omega

/-- Witness for `c9_int32_wrap` at `bigLinearTensor`, whose `2 ^ 35`
byte footprint exceeds `2 ^ 31 - 1`. -/
theorem c9_int32_wrap_witness :
    sizeof_tensor bigLinearTensor
      = Except.ok (toSizeT (wrap32 (trueByteSize bigLinearTensor 4))) :=
  (c9_int32_wrap bigLinearTensor 4 rfl rfl (by decide)).1

/-- Claim C10.  For every tensor with non-linear layout the code pads
the dimension whose index equals the components-per-element value (the
packed-dimension-index query is never made, so the result does not
depend on `vectorizedDim` at all), and when that value is at least the
number of dimensions the padding write lands outside the logical
dimensions: the computed size coincides with the linear-layout
computation. -/
theorem c10_padding_dimension (t : TensorInfo)
    (hf : t.format ≠ TensorFormat.kLINEAR) :
    (∀ vd, sizeof_tensor { t with vectorizedDim := vd } = sizeof_tensor t) ∧
    (t.shape.nbDims ≤ t.componentsPerElement →
      sizeof_tensor t = sizeof_tensor { t with format := TensorFormat.kLINEAR }) := by
  refine ⟨fun vd => rfl, fun hle => ?_⟩
  unfold sizeof_tensor
  rw [if_pos hf, if_neg (show ¬(TensorInfo.format { t with format := TensorFormat.kLINEAR }
    ≠ TensorFormat.kLINEAR) by simp)]
  dsimp only
  have hfold : (List.range t.shape.nbDims).foldl
      (fun s i => wrap32 (s * (Function.update t.shape.d t.componentsPerElement
        (wrap32 (t.shape.d t.componentsPerElement +
          ((t.componentsPerElement : Int) -
            Int.tmod (t.shape.d t.componentsPerElement) (t.componentsPerElement : Int))))) i)) 1
      = (List.range t.shape.nbDims).foldl (fun s i => wrap32 (s * t.shape.d i)) 1 :=
    range_foldl_wrap_congr _ _ _
      (fun i hi => Function.update_noteq (by omega) _ _) 1
  rw [hfold]

/-- Witness for `c10_padding_dimension` at the §8 example tensor, whose
component-group size 4 is at least its 2 dimensions. -/
theorem c10_padding_dimension_witness :
    sizeof_tensor notMultipleTensor
      = sizeof_tensor { notMultipleTensor with format := TensorFormat.kLINEAR } :=
  (c10_padding_dimension notMultipleTensor (by decide)).2 (by decide)

theorem writeFold_frame (w base seed : Nat) (mem : Nat → Nat) :
    ∀ (n : Nat) (a : Nat),
      (∀ j, j < n → ¬(base + j * w ≤ a ∧ a < base + j * w + w)) →
      (List.range n).foldl
        (fun m j => writeWord w (base + j * w) (lcg^[j + 1] seed) m) mem a = mem a := by
  intro n
  induction n with
  | zero => intro a _; rfl
  | succ n ih =>
    intro a h
    rw [List.range_succ, List.foldl_append]
    simp only [List.foldl_cons, List.foldl_nil, writeWord]
    rw [if_neg (h n (Nat.lt_succ_self n))]
    exact ih a (fun j hj => h j (Nat.lt_succ_of_lt hj))

theorem writeFold_content (w base seed : Nat) (mem : Nat → Nat) :
    ∀ (n j k : Nat), j < n → k < w →
      (List.range n).foldl
        (fun m j => writeWord w (base + j * w) (lcg^[j + 1] seed) m) mem (base + j * w + k)
        = lcg^[j + 1] seed / 256 ^ k % 256 := by
  intro n
  induction n with
  | zero => intro j k hj _; exact absurd hj (Nat.not_lt_zero j)
  | succ n ih =>
    intro j k hj hk
    rw [List.range_succ, List.foldl_append]
    simp only [List.foldl_cons, List.foldl_nil, writeWord]
    by_cases hjn : j = n
    · subst hjn
      rw [if_pos ⟨by omega, by omega⟩]
      have heq : base + j * w + k - (base + j * w) = k := by omega
      rw [heq]
    · have hjlt : j < n := by omega
      have h1 : (j + 1) * w ≤ n * w := Nat.mul_le_mul_right w (by omega)
      rw [Nat.succ_mul] at h1
      rw [if_neg (by omega)]
      exact ih j k hjlt hk

/-- Claim C5.  `randomize` on a buffer of size `S` with generator word
width `w` overwrites exactly the first `S / w` full words of the region
with successive generator outputs and modifies nothing else: every byte
below the base address or at or beyond `base + (S / w) * w` — the final
partial word included — is untouched. -/
theorem c5_randomize_extent (w : Nat) (hm : HostMemory) (seed : Nat)
    (mem : Nat → Nat) :
    (∀ a, a < hm.ptr ∨ hm.ptr + hm.size / w * w ≤ a →
      (hm.randomize w seed mem).1 a = mem a) ∧
    (∀ j, j < hm.size / w → ∀ k, k < w →
      (hm.randomize w seed mem).1 (hm.ptr + j * w + k)
        = lcg^[j + 1] seed / 256 ^ k % 256) := by
  constructor
  · intro a ha
    apply writeFold_frame
    intro j hj
    have h1 : (j + 1) * w ≤ hm.size / w * w := Nat.mul_le_mul_right w (by omega)
    rw [Nat.succ_mul] at h1
    rcases ha with ha | ha <;> omega
  · intro j hj k hk
    exact writeFold_content w hm.ptr seed mem (hm.size / w) j k hj hk

/-- Witness for `c5_randomize_extent`: a 10-byte buffer at base 100
with 4-byte words; byte 109 (past the two full words) keeps its old
value, byte 102 holds byte 2 of the first generator word. -/
theorem c5_randomize_extent_witness :
    (HostMemory.randomize 4 ⟨100, 10⟩ 1 (fun _ => 0)).1 109 = 0 ∧
    (HostMemory.randomize 4 ⟨100, 10⟩ 1 (fun _ => 0)).1 102
      = lcg^[1] 1 / 256 ^ 2 % 256 := by
  constructor
  · exact (c5_randomize_extent 4 ⟨100, 10⟩ 1 (fun _ => 0)).1 109 (Or.inr (by decide))
  · exact (c5_randomize_extent 4 ⟨100, 10⟩ 1 (fun _ => 0)).2 0 (by decide) 2 (by decide)

theorem buffersRandTrace_aux (w : Nat) (u : UnitId) :
    ∀ (bufs : List HostMemory) (seed : Nat) (evs : List FuzzEv),
      bufs.foldl
        (fun acc hm => (lcg^[hm.size / w] acc.1, acc.2 ++ [FuzzEv.rand u (hm.size / w)]))
        (seed, evs)
      = (lcg^[(bufs.map (fun hm => hm.size / w)).sum] seed,
         evs ++ bufs.map (fun hm => FuzzEv.rand u (hm.size / w))) := by
  intro bufs
  induction bufs with
  | nil => intro seed evs; simp
  | cons hm rest ih =>
    intro seed evs
    simp only [List.foldl_cons, List.map_cons, List.sum_cons]
    rw [ih]
    have h1 : lcg^[(rest.map (fun hm => hm.size / w)).sum] (lcg^[hm.size / w] seed)
        = lcg^[hm.size / w + (rest.map (fun hm => hm.size / w)).sum] seed := by
      rw [Nat.add_comm, Function.iterate_add_apply]
    rw [h1]
    simp

theorem buffersRandTrace_spec (w : Nat) (u : UnitId) (bufs : List HostMemory) (seed : Nat) :
    buffersRandTrace w u bufs seed
      = (lcg^[(bufs.map (fun hm => hm.size / w)).sum] seed,
         bufs.map (fun hm => FuzzEv.rand u (hm.size / w))) := by
  unfold buffersRandTrace
  rw [buffersRandTrace_aux]
  simp

theorem randomizeTrace_spec (w : Nat) (u : UnitId) (b : IOBuffers) (seed : Nat) :
    b.randomizeTrace w u seed = (lcg^[b.words w] seed, randEvs w u b) := by
  unfold IOBuffers.randomizeTrace IOBuffers.words randEvs
  simp only [buffersRandTrace_spec]
  rw [Prod.ext_iff]
  constructor
  · dsimp only
    rw [List.map_append, List.sum_append, Nat.add_comm, Function.iterate_add_apply]
  · dsimp only
    rw [List.map_append]

/-- Claim C6.  Every iteration `n` of the steady-state fuzz loop has
this exact event order: the progress print, then all `rand` events of
unit A, then all `rand` events of unit B (one per buffer, all drawn
from the one shared generator), then launch of A, launch of B — with no
synchronize between or before the two launches — and only then
synchronize of A followed by synchronize of B; and the shared generator
state entering iteration `n + 1` is the state entering iteration `n`
advanced across all buffers of A and then all buffers of B. -/
theorem c6_loop_order (w : Nat) (bufs0 bufs1 : IOBuffers) (seed0 n : Nat) :
    iterationTrace w bufs0 bufs1 seed0 n
      = FuzzEv.progress n ::
          (randEvs w UnitId.A bufs0 ++ randEvs w UnitId.B bufs1 ++
            [FuzzEv.launch UnitId.A, FuzzEv.launch UnitId.B,
             FuzzEv.sync UnitId.A, FuzzEv.sync UnitId.B]) ∧
    (∀ e ∈ randEvs w UnitId.A bufs0, ∃ k, e = FuzzEv.rand UnitId.A k) ∧
    (∀ e ∈ randEvs w UnitId.B bufs1, ∃ k, e = FuzzEv.rand UnitId.B k) ∧
    (randEvs w UnitId.A bufs0).length = bufs0.inputs.length + bufs0.outputs.length ∧
    (randEvs w UnitId.B bufs1).length = bufs1.inputs.length + bufs1.outputs.length ∧
    seedBefore w bufs0 bufs1 seed0 (n + 1)
      = lcg^[bufs1.words w] (lcg^[bufs0.words w] (seedBefore w bufs0 bufs1 seed0 n)) := by
  refine ⟨?_, ?_, ?_, ?_, ?_, ?_⟩
  · simp only [iterationTrace, loopBody, randomizeTrace_spec]
  · intro e he
    rcases List.mem_map.1 he with ⟨hm, _, heq⟩
    exact ⟨hm.size / w, heq.symm⟩
  · intro e he
    rcases List.mem_map.1 he with ⟨hm, _, heq⟩
    exact ⟨hm.size / w, heq.symm⟩
  · unfold randEvs
    rw [List.length_map, List.length_append]
  · unfold randEvs
    rw [List.length_map, List.length_append]
  · show (loopBody w bufs0 bufs1 n (seedBefore w bufs0 bufs1 seed0 n)).1 = _
    simp only [loopBody, randomizeTrace_spec]

/-- Witness for `c6_loop_order`: the trace shape of iteration 0 on the
concrete demo buffer sets. -/
theorem c6_loop_order_witness :
    iterationTrace 8 demoBufsA demoBufsB 1 0
      = FuzzEv.progress 0 ::
          (randEvs 8 UnitId.A demoBufsA ++ randEvs 8 UnitId.B demoBufsB ++
            [FuzzEv.launch UnitId.A, FuzzEv.launch UnitId.B,
             FuzzEv.sync UnitId.A, FuzzEv.sync UnitId.B]) :=
  (c6_loop_order 8 demoBufsA demoBufsB 1 0).1

/-- Claim C7.  For each execution unit the setup sequence follows the
capture protocol strictly: before its begin-capture there is exactly
one enqueue and exactly one synchronize of that unit, with no
synchronize of the unit preceding the warm-up enqueue (the warm-up is
submitted, then waited for); between its begin-capture and its
end-capture there is exactly one enqueue and no synchronize call of any
stream; end-capture precedes graph instantiation; and the graph is
instantiated before the steady-state loop is entered. -/
theorem c7_setup_protocol (u : UnitId) :
    (beforeFirst (SetupEv.beginCapture u) setupTrace).count (SetupEv.enqueue u) = 1 ∧
    (beforeFirst (SetupEv.beginCapture u) setupTrace).count (SetupEv.sync u) = 1 ∧
    ((beforeFirst (SetupEv.beginCapture u) setupTrace).takeWhile
        (fun x => x != SetupEv.enqueue u)).count (SetupEv.sync u) = 0 ∧
    (betweenFirst (SetupEv.beginCapture u) (SetupEv.endCapture u) setupTrace).count
        (SetupEv.enqueue u) = 1 ∧
    (betweenFirst (SetupEv.beginCapture u) (SetupEv.endCapture u) setupTrace).countP
        isSyncEv = 0 ∧
    (beforeFirst (SetupEv.graphInst u) setupTrace).count (SetupEv.endCapture u) = 1 ∧
    (beforeFirst SetupEv.loopEnter setupTrace).count (SetupEv.graphInst u) = 1 := by
  cases u <;> decide

/-- Witness for `c7_setup_protocol` at unit A. -/
theorem c7_setup_protocol_witness :
    (beforeFirst (SetupEv.beginCapture UnitId.A) setupTrace).count
      (SetupEv.enqueue UnitId.A) = 1 :=
  (c7_setup_protocol UnitId.A).1

/-- Claim C8.  The steady-state loop never terminates normally: after
any number `k` of host steps from loop entry, `main` is still inside
the loop at iteration `k`, and no exit state — in particular no normal
exit with code 0 — is ever reached. -/
theorem c8_no_normal_exit (w : Nat) (bufs0 bufs1 : IOBuffers) (seed0 : Nat) (k : Nat) :
    (mainStep w bufs0 bufs1)^[k] (MainState.looping 0 seed0)
      = MainState.looping k (seedBefore w bufs0 bufs1 seed0 k) ∧
    ∀ c, (mainStep w bufs0 bufs1)^[k] (MainState.looping 0 seed0) ≠ MainState.exited c := by
  have h : ∀ m, (mainStep w bufs0 bufs1)^[m] (MainState.looping 0 seed0)
      = MainState.looping m (seedBefore w bufs0 bufs1 seed0 m) := by
    intro m
    induction m with
    | zero => rfl
    | succ m ih =>
      rw [Function.iterate_succ_apply', ih]
      rfl
  exact ⟨h k, fun c hc => by rw [h k] at hc; exact MainState.noConfusion hc⟩

/-- Witness for `c8_no_normal_exit`: after three steps on the demo
configuration the state is not the normal-exit state. -/
theorem c8_no_normal_exit_witness :
    (mainStep 8 demoBufsA demoBufsB)^[3] (MainState.looping 0 1) ≠ MainState.exited 0 :=
  (c8_no_normal_exit 8 demoBufsA demoBufsB 1 3).2 0
